import Mathlib

/-!
Verification of the zip-code lookup service (src/server/main.py) against its
natural-language specification.

The embedding translates the Python source into Lean:
* SQLite rows become a `List ZipRow`; the SQL queries used by the service
  (`SELECT zip, lat, lng ... WHERE lat IS NOT NULL AND lng IS NOT NULL`,
  `SELECT * ... WHERE zip = ?`, `ORDER BY RANDOM() LIMIT 1`) become
  `filterMap`, `find?` and head-of-a-permutation respectively.
* Machine floats become `ℚ` (exact arithmetic); Euclidean-distance comparisons
  are embedded as squared-distance comparisons, which order points identically.
* `HTTPException` becomes an `Except HTTPError` result.
* The scipy `KDTree` (an external dependency of the source) is modelled from
  the spec, section 4.1: a binary space partition with median splits on
  alternating axes, leaf buckets of at most `leafsize` points, and a pruned
  nearest-neighbour query.
-/

/-- A 2-D point (latitude, longitude), embedded as exact rationals. -/
abbrev Pt : Type := ℚ × ℚ

/-- A point tagged with its position in the build-time input sequence. -/
abbrev IPt : Type := Nat × Pt

/-- A candidate answer of the nearest query: (position, squared distance). -/
abbrev Best : Type := Nat × ℚ

/-- Squared Euclidean distance.  Comparing squared distances orders points the
same way as comparing Euclidean distances, so the argmin is unchanged. -/
def sqDist (a b : Pt) : ℚ :=
  (a.1 - b.1) ^ 2 + (a.2 - b.2) ^ 2

/-- The coordinate of a point along a splitting axis
(`false` = latitude, `true` = longitude). -/
def coordAx (ax : Bool) (p : Pt) : ℚ :=
  if ax then p.2 else p.1

/-- The splitting-axis coordinate of an indexed point. -/
def kdKey (ax : Bool) (p : IPt) : ℚ :=
  coordAx ax p.2

/-- Modelled from the spec: the k-d tree structure of scipy.spatial.KDTree
(an external dependency, absent from src/).  "a balanced binary space
partition over 2-D points, each leaf/node storing a point and a back-reference
(integer position) into the coordinate sequence it was built from"; leaves are
flat buckets of points below the leaf-size threshold. -/
inductive KD : Type where
  | leaf : List IPt → KD
  | node : Bool → ℚ → KD → KD → KD

/-- All indexed points stored in a tree, in traversal order. -/
def entries : KD → List IPt
  | KD.leaf ps => ps
  | KD.node _ _ l r => entries l ++ entries r

/-- The source constructs the scipy KDTree with `leafsize=100`. -/
def leafsize : Nat := 100

/-- Default indexed point used with `List.getD`. -/
def ptD : IPt := (0, (0, 0))

/-- Modelled from the spec: KDTree construction (scipy, absent from src/).
"partitions the point set recursively by alternating coordinate axis ...
splitting at the median"; buckets of at most `leafsize` points become leaves. -/
def build (ax : Bool) (pts : List IPt) : KD :=
  if pts.length ≤ leafsize then KD.leaf pts
  else
    let sorted := List.insertionSort (fun a b => kdKey ax a ≤ kdKey ax b) pts
    let m := pts.length / 2
    KD.node ax (kdKey ax (sorted.getD m ptD))
      (build (!ax) (sorted.take m)) (build (!ax) (sorted.drop m))
termination_by pts.length
decreasing_by
  all_goals
    simp only [List.length_take, List.length_drop, List.length_insertionSort,
      leafsize] at *
    omega

/-- One step of the brute-force scan: keep the incumbent unless the new point
is strictly closer (so the first point attaining the minimum wins). -/
def updateBest (q : Pt) (best : Option Best) (p : IPt) : Option Best :=
  let d := sqDist p.2 q
  match best with
  | none => some (p.1, d)
  | some b => if d < b.2 then some (p.1, d) else some b

/-- Linear scan of a bucket of points, starting from an incumbent best. -/
def scanMin (q : Pt) (ps : List IPt) (best : Option Best) : Option Best :=
  ps.foldl (updateBest q) best

/-- Modelled from the spec: KDTree nearest-neighbour query (scipy, absent from
src/).  Descends into the near side first, then visits the far side only when
the splitting plane is closer than the incumbent best — "Output: the position
(into the original input sequence used at build time) of the point with
minimum Euclidean distance to the query." -/
def queryKD (q : Pt) : KD → Option Best → Option Best
  | KD.leaf ps, best => scanMin q ps best
  | KD.node ax s l r, best =>
    let qa := coordAx ax q
    if qa ≤ s then
      match queryKD q l best with
      | none => queryKD q r none
      | some br => if (qa - s) ^ 2 < br.2 then queryKD q r (some br) else some br
    else
      match queryKD q r best with
      | none => queryKD q l none
      | some br => if (qa - s) ^ 2 < br.2 then queryKD q l (some br) else some br

/-- The brute-force linear scan the spec uses as the correctness oracle for
the nearest query. -/
def bruteNearest (pts : List IPt) (q : Pt) : Option Best :=
  scanMin q pts none

/-- One row of the `zip_codes` table (the ZipCodeData serialization fields). -/
structure ZipRow where
  id : Int
  zip : String
  lat : Option ℚ
  lng : Option ℚ
  population : Option Int
  city : Option String
  state : Option String
  type : Option String
deriving DecidableEq, Repr

/-- An `HTTPException(status_code, detail)` raised by the service. -/
structure HTTPError where
  status : Nat
  detail : String
deriving DecidableEq, Repr

/-- 400 raised by `get_zip_or_coords` when latitude is out of range. -/
def errLat : HTTPError :=
  ⟨400, "Latitude must be between -90 and 90. Expected format: /\x7blatitude\x7d,\x7blongitude\x7d"⟩

/-- 400 raised by `get_zip_or_coords` when longitude is out of range. -/
def errLng : HTTPError :=
  ⟨400, "Longitude must be between -180 and 180. Expected format: /\x7blatitude\x7d,\x7blongitude\x7d"⟩

/-- 404 raised by `get_zip_or_coords` when a code is absent. -/
def errNotFound : HTTPError := ⟨404, "Zip code not found"⟩

/-- 503 raised by `find_nearest` when the index is not built (the detail
string reproduces the source's wording verbatim, double negative included). -/
def errUnavailable : HTTPError := ⟨503, "Geospatial index not unavailable"⟩

/-- 404 raised by `find_nearest` when the resolved code is missing from the
reference store (the internal-consistency, "should never happen" case). -/
def errDetails : HTTPError := ⟨404, "Zip code details not found"⟩

/-- 404 raised by `get_random_zip` on an empty table. -/
def errEmpty : HTTPError := ⟨404, "Database is empty"⟩

/-- 500 surfaced when an uncaught Python exception (an IndexError from
`state.zip_codes_list[index]`) escapes a route handler. -/
def errInternal : HTTPError := ⟨500, "Internal Server Error"⟩

/-- The module-level `AppState`, with the database connection embedded as the
list of rows it reaches. -/
structure AppState where
  kd_tree : Option KD
  zip_codes_list : List String
  db : List ZipRow

/-- `SELECT zip, lat, lng FROM zip_codes WHERE lat IS NOT NULL AND lng IS NOT
NULL`, in table order. -/
def fetchAllWithCoords (db : List ZipRow) : List (String × ℚ × ℚ) :=
  db.filterMap fun r =>
    match r.lat, r.lng with
    | some a, some b => some (r.zip, a, b)
    | _, _ => none

/-- Tags each coordinate row with its position, starting from `i`. -/
def enumCoords : Nat → List (String × ℚ × ℚ) → List IPt
  | _, [] => []
  | i, row :: rest => (i, row.2) :: enumCoords (i + 1) rest

/-- The coordinate sequence fed to the KDTree by `load_geo_data`, with each
point tagged by its position in `fetchAllWithCoords` order. -/
def geoPoints (db : List ZipRow) : List IPt :=
  enumCoords 0 (fetchAllWithCoords db)

/-- `load_geo_data`: fetches all coordinate rows, and when any exist,
populates `zip_codes_list` and the KDTree together from that one row list;
when none exist it returns leaving the state untouched. -/
def load_geo_data (st : AppState) : AppState :=
  let rows := fetchAllWithCoords st.db
  if rows.isEmpty then st
  else
    { st with
      zip_codes_list := rows.map (fun r => r.1)
      kd_tree := some (build false (geoPoints st.db)) }

/-- `find_nearest`: 503 when the tree is unset; otherwise queries the tree,
resolves the returned position through `zip_codes_list`, and fetches the full
row by code (404 "details" when that fetch comes back empty).  The two
`errInternal` branches model Python's uncaught IndexError when the query
position misses `zip_codes_list`; they are unreachable for states produced by
`load_geo_data`. -/
def find_nearest (st : AppState) (lat lng : ℚ) : Except HTTPError ZipRow :=
  match st.kd_tree with
  | none => Except.error errUnavailable
  | some t =>
    match queryKD (lat, lng) t none with
    | none => Except.error errInternal
    | some r =>
      match st.zip_codes_list.get? r.1 with
      | none => Except.error errInternal
      | some z =>
        match st.db.find? (fun row => row.zip == z) with
        | none => Except.error errDetails
        | some row => Except.ok row

/-- `GET /nearest` (`get_nearest_zip`): forwards straight to `find_nearest`
with no bounds validation of its own. -/
def get_nearest_zip (st : AppState) (lat lng : ℚ) : Except HTTPError ZipRow :=
  find_nearest st lat lng

/-- Splitting a character list at every occurrence of a separator; the empty
list yields one empty part, like Python's `str.split`. -/
def splitOnChar (c : Char) : List Char → List (List Char)
  | [] => [[]]
  | x :: xs =>
    match splitOnChar c xs, x == c with
    | rest, true => [] :: rest
    | [], false => [[x]]
    | y :: ys, false => (x :: y) :: ys

/-- Python's `query.split(",")` for the single-character separator the source
uses. -/
def pySplit (s : String) (c : Char) : List String :=
  (splitOnChar c s.data).map String.mk

/-- `GET /{query}` (`get_zip_or_coords`), parametrized by the float parser
`pf` (Python's builtin `float`).  The source first tests `"," in query` and
then `len(parts) == 2`; a comma is in the string exactly when the split has
at least two parts, so the two guards collapse to the single test
`parts.length = 2` used here.  A `float` ValueError falls through to the
exact-code branch; the two bound checks mirror
`not (-90 <= lat <= 90)` / `not (-180 <= lng <= 180)`. -/
def get_zip_or_coords (pf : String → Option ℚ) (st : AppState) (query : String) :
    Except HTTPError ZipRow :=
  let parts := pySplit query ','
  let parsed : Option Pt :=
    if parts.length = 2 then
      match pf (parts.getD 0 ""), pf (parts.getD 1 "") with
      | some la, some ln => some (la, ln)
      | _, _ => none
    else none
  match parsed with
  | some c =>
    if ¬ (-90 ≤ c.1 ∧ c.1 ≤ 90) then Except.error errLat
    else if ¬ (-180 ≤ c.2 ∧ c.2 ≤ 180) then Except.error errLng
    else find_nearest st c.1 c.2
  | none =>
    match st.db.find? (fun row => row.zip == query) with
    | none => Except.error errNotFound
    | some row => Except.ok row

/-- Does a row carry a non-empty city and a non-empty state? -/
def hasCityState (r : ZipRow) : Bool :=
  match r.city, r.state with
  | some c, some s => !(c == "") && !(s == "")
  | _, _ => false

/-- `GET /random` (`get_random_zip`): `SELECT * FROM zip_codes ORDER BY
RANDOM() LIMIT 1`.  The random shuffle chosen by SQLite is passed in as
`shuffled`; callers relate it to the table by a permutation hypothesis. -/
def get_random_zip (shuffled : List ZipRow) : Except HTTPError ZipRow :=
  match shuffled.head? with
  | none => Except.error errEmpty
  | some r => Except.ok r

/-- Modelled from the spec: the `city_and_state_only` restriction of
`GET /random` ("Optionally restricted to a filtered subset (records with
non-empty city and state)"), exercised by src/server/test_main.py but absent
from src/server/main.py. -/
def get_random_zip_filtered (shuffled : List ZipRow) (cso : Bool) :
    Except HTTPError ZipRow :=
  get_random_zip (if cso then shuffled.filter hasCityState else shuffled)

/-- Boolean total order on strings. -/
def strLeB (a b : String) : Bool :=
  decide (a < b) || a == b

/-- Lifts a boolean order to `Option`, sorting absent values first (SQL NULL
ordering). -/
def optLeB {α : Type} (le : α → α → Bool) : Option α → Option α → Bool
  | none, _ => true
  | some _, none => false
  | some x, some y => le x y

/-- Modelled from the spec: the allowed `sort_by` fields of `GET /zips`
("code, population, city, state, latitude, longitude"), under the source's
column names. -/
def allowed_sort_fields : List String :=
  ["zip", "population", "city", "state", "lat", "lng"]

/-- Ascending comparison of two rows on a sort field. -/
def fieldLe (f : String) (a b : ZipRow) : Bool :=
  if f == "zip" then strLeB a.zip b.zip
  else if f == "population" then optLeB (fun x y => decide (x ≤ y)) a.population b.population
  else if f == "city" then optLeB strLeB a.city b.city
  else if f == "state" then optLeB strLeB a.state b.state
  else if f == "lat" then optLeB (fun x y => decide (x ≤ y)) a.lat b.lat
  else optLeB (fun x y => decide (x ≤ y)) a.lng b.lng

/-- The fixed page size of `GET /zips`. -/
def page_size : Nat := 250

/-- Modelled from the spec: the `GET /zips` route ("`page` is 1-indexed;
`page_size` fixed at 250. `sort_by` must be one of a fixed enumerated set of
allowed fields ... reject anything else with a validation failure naming the
invalid field"), exercised by src/server/test_main.py but absent from
src/server/main.py. -/
def get_zips (db : List ZipRow) (page : Nat) (sort_by order : String)
    (cso : Bool) : Except HTTPError (List ZipRow) :=
  if ¬ (allowed_sort_fields.contains sort_by) then
    Except.error ⟨400, "Invalid sort_by field: " ++ sort_by⟩
  else if ¬ (order == "asc" || order == "desc") then
    Except.error ⟨400, "Invalid order: " ++ order⟩
  else
    let pool := if cso then db.filter hasCityState else db
    let le : ZipRow → ZipRow → Prop := fun a b =>
      (if order == "asc" then fieldLe sort_by a b else fieldLe sort_by b a) = true
    let sorted := List.insertionSort le pool
    Except.ok ((sorted.drop ((page - 1) * page_size)).take page_size)

/-- Numeric value of a decimal digit character. -/
def digitVal (c : Char) : Nat := c.toNat - 48

/-- Value of a string of decimal digits. -/
def digitsVal (cs : List Char) : Nat :=
  cs.foldl (fun acc c => acc * 10 + digitVal c) 0

/-- Are all characters decimal digits? -/
def allDigits (cs : List Char) : Bool := cs.all Char.isDigit

/-- Strips leading and trailing whitespace. -/
def trimChars (cs : List Char) : List Char :=
  ((cs.dropWhile (fun c => c.isWhitespace)).reverse.dropWhile
    (fun c => c.isWhitespace)).reverse

/-- Parses an unsigned decimal numeral with an optional fractional part. -/
def parseUnsignedChars (cs : List Char) : Option ℚ :=
  match splitOnChar '.' cs with
  | [ip] =>
    if 0 < ip.length ∧ allDigits ip then some ((digitsVal ip : ℚ)) else none
  | [ip, fp] =>
    if 0 < ip.length + fp.length ∧ allDigits ip ∧ allDigits fp then
      some ((digitsVal ip : ℚ) + (digitsVal fp : ℚ) / ((10 ^ fp.length : ℕ) : ℚ))
    else none
  | _ => none

/-- Modelled from the spec: Python's builtin `float` parser (external to
src/), on the decimal fragment the service's inputs use — optional
whitespace, optional sign, digits with an optional fractional part. -/
def parseRat (s : String) : Option ℚ :=
  match trimChars s.data with
  | '-' :: rest => (parseUnsignedChars rest).map (fun x => -x)
  | '+' :: rest => parseUnsignedChars rest
  | cs => parseUnsignedChars cs

/-! ## Correctness of the spatial index -/

/-- The three contract clauses of a nearest-candidate transformer `f` over a
point bucket `ps`: starting from any incumbent, (1) an incumbent is never
worsened, (2) the result undercuts every point of the bucket, and (3) the
result is either a (position, squared distance) pair of some bucket point or
the untouched incumbent. -/
def ResOK (q : Pt) (ps : List IPt) (f : Option Best → Option Best) : Prop :=
  ∀ best : Option Best,
    (∀ b, best = some b → ∃ r, f best = some r ∧ r.2 ≤ b.2) ∧
    (∀ p ∈ ps, ∃ r, f best = some r ∧ r.2 ≤ sqDist p.2 q) ∧
    (∀ r, f best = some r → (∃ p ∈ ps, r = (p.1, sqDist p.2 q)) ∨ best = some r)

/-- Partition invariant of a built tree: at every node, the left subtree's
points sit at or below the split on the node's axis and the right subtree's
points at or above it. -/
inductive KDInv : KD → Prop where
  | leaf (ps : List IPt) : KDInv (KD.leaf ps)
  | node (ax : Bool) (s : ℚ) (l r : KD)
      (hl : ∀ p ∈ entries l, kdKey ax p ≤ s)
      (hr : ∀ p ∈ entries r, s ≤ kdKey ax p)
      (il : KDInv l) (ir : KDInv r) : KDInv (KD.node ax s l r)

instance (ax : Bool) : IsTotal IPt (fun a b => kdKey ax a ≤ kdKey ax b) :=
  ⟨fun a b => le_total (kdKey ax a) (kdKey ax b)⟩

instance (ax : Bool) : IsTrans IPt (fun a b => kdKey ax a ≤ kdKey ax b) :=
  ⟨fun _ _ _ h h2 => le_trans h h2⟩

/-- Default coordinate row used with `List.getD`. -/
def rowD : String × ℚ × ℚ := ("", 0, 0)

/-- Demo row: a record at (10, 10). -/
def rowA : ZipRow :=
  ⟨1, "11111", some 10, some 10, some 100, some "Alpha", some "AA", some "city"⟩

/-- Demo row: a record at (0, 0). -/
def rowB : ZipRow :=
  ⟨2, "22222", some 0, some 0, some 50, some "Beta", some "BB", some "town"⟩

/-- Demo row: the Adjuntas, PR record of the spec's end-to-end scenario. -/
def rowC : ZipRow :=
  ⟨3, "00601", some 18, some (-66), some 17126,
    some "Adjuntas", some "PR", some "city"⟩

/-- A small concrete reference table. -/
def demoDb : List ZipRow := [rowA, rowB, rowC]

/-- The process state before startup: no tree, empty code list. -/
def demoSt0 : AppState := ⟨none, [], demoDb⟩

/-- The state after `load_geo_data` has run on the demo table. -/
def demoState : AppState := load_geo_data demoSt0

/-- A deliberately inconsistent state: an index position resolves to code
"99999", which is absent from the reference table. -/
def mismatchState : AppState := ⟨some (KD.leaf [(0, (0, 0))]), ["99999"], demoDb⟩

theorem updateBest_spec (q : Pt) (best : Option Best) (p : IPt) :
    ∃ b, updateBest q best p = some b ∧ b.2 ≤ sqDist p.2 q ∧
      (∀ b0, best = some b0 → b.2 ≤ b0.2) ∧
      (b = (p.1, sqDist p.2 q) ∨ best = some b) := by
  cases best with
  | none =>
    refine ⟨(p.1, sqDist p.2 q), rfl, le_refl _, ?_, Or.inl rfl⟩
    intro b0 h
    cases h
  | some b0 =>
    by_cases h : sqDist p.2 q < b0.2
    · refine ⟨(p.1, sqDist p.2 q), ?_, le_refl _, ?_, Or.inl rfl⟩
      · simp [updateBest, h]
      · intro b1 hb1
        cases hb1
        exact le_of_lt h
    · refine ⟨b0, ?_, not_lt.mp h, ?_, Or.inr rfl⟩
      · simp [updateBest, h]
      · intro b1 hb1
        cases hb1
        exact le_refl _

theorem scanMin_correct (q : Pt) (ps : List IPt) : ResOK q ps (scanMin q ps) := by
  induction ps with
  | nil =>
    intro best
    refine ⟨fun b hb => ⟨b, hb, le_refl _⟩, ?_, fun r hr => Or.inr hr⟩
    intro p hp
    cases hp
  | cons p ps ih =>
    intro best
    obtain ⟨b, hb, hble, hbmono, hbprov⟩ := updateBest_spec q best p
    have hstep : scanMin q (p :: ps) best = scanMin q ps (updateBest q best p) := rfl
    obtain ⟨ih1, ih2, ih3⟩ := ih (updateBest q best p)
    refine ⟨?_, ?_, ?_⟩
    · intro b0 hb0
      obtain ⟨r, hr, hrle⟩ := ih1 b hb
      exact ⟨r, hstep ▸ hr, le_trans hrle (hbmono b0 hb0)⟩
    · intro p0 hp0
      rcases List.mem_cons.mp hp0 with hp0 | hp0
      · obtain ⟨r, hr, hrle⟩ := ih1 b hb
        exact ⟨r, hstep ▸ hr, hp0 ▸ le_trans hrle hble⟩
      · obtain ⟨r, hr, hrle⟩ := ih2 p0 hp0
        exact ⟨r, hstep ▸ hr, hrle⟩
    · intro r hr
      rw [hstep] at hr
      rcases ih3 r hr with ⟨p0, hp0, heq⟩ | hprev
      · exact Or.inl ⟨p0, List.mem_cons_of_mem _ hp0, heq⟩
      · rw [hb] at hprev
        cases hprev
        rcases hbprov with heq | hsame
        · exact Or.inl ⟨p, List.mem_cons_self _ _, heq.symm ▸ rfl⟩
        · exact Or.inr hsame

/-- Membership-only transfer of the contract between equal point sets. -/
theorem ResOK_congr (q : Pt) (ps ps' : List IPt) (f : Option Best → Option Best)
    (hmem : ∀ p, p ∈ ps ↔ p ∈ ps') (h : ResOK q ps f) : ResOK q ps' f := by
  intro best
  obtain ⟨h1, h2, h3⟩ := h best
  refine ⟨h1, fun p hp => h2 p ((hmem p).mpr hp), ?_⟩
  intro r hr
  rcases h3 r hr with ⟨p, hp, heq⟩ | hprev
  · exact Or.inl ⟨p, (hmem p).mp hp, heq⟩
  · exact Or.inr hprev

/-- The near-then-maybe-far combination step of the pruned query: if every
far-side point is at least `c` away and the transformers for both sides obey
the contract, so does the combination that skips the far side whenever the
incumbent after the near side is already within `c`. -/
theorem combine_correct (q : Pt) (psn psf : List IPt)
    (fn ff : Option Best → Option Best)
    (hn : ResOK q psn fn) (hf : ResOK q psf ff) (c : ℚ)
    (hfarLB : ∀ p ∈ psf, c ≤ sqDist p.2 q) :
    ResOK q (psn ++ psf) (fun best =>
      match fn best with
      | none => ff none
      | some br => if c < br.2 then ff (some br) else some br) := by
  intro best
  obtain ⟨hn1, hn2, hn3⟩ := hn best
  cases hfn : fn best with
  | none =>
    obtain ⟨hf1, hf2, hf3⟩ := hf none
    refine ⟨?_, ?_, ?_⟩
    · intro b hb
      obtain ⟨r, hr, _⟩ := hn1 b hb
      rw [hfn] at hr
      cases hr
    · intro p hp
      rcases List.mem_append.mp hp with hp | hp
      · obtain ⟨r, hr, _⟩ := hn2 p hp
        rw [hfn] at hr
        cases hr
      · obtain ⟨r, hr, hrle⟩ := hf2 p hp
        exact ⟨r, by simpa [hfn] using hr, hrle⟩
    · intro r hr
      simp only [hfn] at hr
      rcases hf3 r hr with ⟨p, hp, heq⟩ | hprev
      · exact Or.inl ⟨p, List.mem_append_right _ hp, heq⟩
      · cases hprev
  | some br =>
    have hbrn := hn3 br hfn
    by_cases hc : c < br.2
    · obtain ⟨hf1, hf2, hf3⟩ := hf (some br)
      refine ⟨?_, ?_, ?_⟩
      · intro b hb
        obtain ⟨r, hr, hrle⟩ := hn1 b hb
        rw [hfn] at hr
        cases hr
        obtain ⟨r2, hr2, hr2le⟩ := hf1 br rfl
        exact ⟨r2, by simpa [hfn, hc] using hr2, le_trans hr2le hrle⟩
      · intro p hp
        rcases List.mem_append.mp hp with hp | hp
        · obtain ⟨r, hr, hrle⟩ := hn2 p hp
          rw [hfn] at hr
          cases hr
          obtain ⟨r2, hr2, hr2le⟩ := hf1 br rfl
          exact ⟨r2, by simpa [hfn, hc] using hr2, le_trans hr2le hrle⟩
        · obtain ⟨r2, hr2, hr2le⟩ := hf2 p hp
          exact ⟨r2, by simpa [hfn, hc] using hr2, hr2le⟩
      · intro r hr
        simp only [hfn, if_pos hc] at hr
        rcases hf3 r hr with ⟨p, hp, heq⟩ | hprev
        · exact Or.inl ⟨p, List.mem_append_right _ hp, heq⟩
        · cases hprev
          rcases hbrn with ⟨p, hp, heq⟩ | hprev2
          · exact Or.inl ⟨p, List.mem_append_left _ hp, heq⟩
          · exact Or.inr hprev2
    · refine ⟨?_, ?_, ?_⟩
      · intro b hb
        obtain ⟨r, hr, hrle⟩ := hn1 b hb
        rw [hfn] at hr
        cases hr
        exact ⟨br, by simp [hfn, hc], hrle⟩
      · intro p hp
        rcases List.mem_append.mp hp with hp | hp
        · obtain ⟨r, hr, hrle⟩ := hn2 p hp
          rw [hfn] at hr
          cases hr
          exact ⟨br, by simp [hfn, hc], hrle⟩
        · exact ⟨br, by simp [hfn, hc],
            le_trans (not_lt.mp hc) (hfarLB p hp)⟩
      · intro r hr
        simp only [hfn, if_neg hc] at hr
        cases hr
        rcases hbrn with ⟨p, hp, heq⟩ | hprev
        · exact Or.inl ⟨p, List.mem_append_left _ hp, heq⟩
        · exact Or.inr hprev

theorem sqDist_ge_axis (ax : Bool) (p q : Pt) :
    (coordAx ax p - coordAx ax q) ^ 2 ≤ sqDist p q := by
  cases ax <;> simp only [coordAx, sqDist, Bool.false_eq_true, if_false, if_true] <;>
    nlinarith [sq_nonneg (p.1 - q.1), sq_nonneg (p.2 - q.2)]

/-- A point on the far side of the splitting plane is at least as far from
the query as the plane itself (query at or below the split). -/
theorem far_lb_right (ax : Bool) (s : ℚ) (q : Pt) (p : IPt)
    (hq : coordAx ax q ≤ s) (hp : s ≤ kdKey ax p) :
    (coordAx ax q - s) ^ 2 ≤ sqDist p.2 q := by
  have h1 := sqDist_ge_axis ax p.2 q
  have h2 : kdKey ax p = coordAx ax p.2 := rfl
  nlinarith [h1, h2 ▸ hp, hq]

/-- A point on the far side of the splitting plane is at least as far from
the query as the plane itself (query above the split). -/
theorem far_lb_left (ax : Bool) (s : ℚ) (q : Pt) (p : IPt)
    (hq : s ≤ coordAx ax q) (hp : kdKey ax p ≤ s) :
    (coordAx ax q - s) ^ 2 ≤ sqDist p.2 q := by
  have h1 := sqDist_ge_axis ax p.2 q
  have h2 : kdKey ax p = coordAx ax p.2 := rfl
  nlinarith [h1, h2 ▸ hp, hq]

/-- The pruned query obeys the nearest-candidate contract on the whole point
set of any tree satisfying the partition invariant: it never worsens an
incumbent, undercuts every stored point, and returns a stored point's
(position, squared distance) or the untouched incumbent. -/
theorem queryKD_correct {t : KD} (hInv : KDInv t) (q : Pt) :
    ResOK q (entries t) (queryKD q t) := by
  induction hInv with
  | leaf ps => exact scanMin_correct q ps
  | node ax s l r hl hr il ir ihl ihr =>
    by_cases hside : coordAx ax q ≤ s
    · have key : ∀ best, queryKD q (KD.node ax s l r) best =
          (match queryKD q l best with
           | none => queryKD q r none
           | some br =>
             if (coordAx ax q - s) ^ 2 < br.2 then queryKD q r (some br)
             else some br) := by
        intro best
        simp only [queryKD, if_pos hside]
      have hcomb := combine_correct q (entries l) (entries r)
        (queryKD q l) (queryKD q r) ihl ihr ((coordAx ax q - s) ^ 2)
        (fun p hp => far_lb_right ax s q p hside (hr p hp))
      intro best
      obtain ⟨h1, h2, h3⟩ := hcomb best
      refine ⟨?_, ?_, ?_⟩
      · intro b hb
        simpa [key best] using h1 b hb
      · intro p hp
        simpa [key best] using h2 p (by simpa [entries] using hp)
      · intro r0 hr0
        have := h3 r0 (by simpa [key best] using hr0)
        simpa [entries] using this
    · have hside' : s ≤ coordAx ax q := le_of_lt (not_le.mp hside)
      have key : ∀ best, queryKD q (KD.node ax s l r) best =
          (match queryKD q r best with
           | none => queryKD q l none
           | some br =>
             if (coordAx ax q - s) ^ 2 < br.2 then queryKD q l (some br)
             else some br) := by
        intro best
        simp only [queryKD, if_neg hside]
      have hcomb := combine_correct q (entries r) (entries l)
        (queryKD q r) (queryKD q l) ihr ihl ((coordAx ax q - s) ^ 2)
        (fun p hp => far_lb_left ax s q p hside' (hl p hp))
      intro best
      obtain ⟨h1, h2, h3⟩ := hcomb best
      refine ⟨?_, ?_, ?_⟩
      · intro b hb
        simpa [key best] using h1 b hb
      · intro p hp
        refine ?_
        have hp' : p ∈ entries r ++ entries l := by
          rcases List.mem_append.mp (by simpa [entries] using hp) with h | h
          · exact List.mem_append_right _ h
          · exact List.mem_append_left _ h
        simpa [key best] using h2 p hp'
      · intro r0 hr0
        have := h3 r0 (by simpa [key best] using hr0)
        rcases this with ⟨p, hp, heq⟩ | hprev
        · refine Or.inl ⟨p, ?_, heq⟩
          rcases List.mem_append.mp hp with h | h
          · simpa [entries] using Or.inr h
          · simpa [entries] using Or.inl h
        · exact Or.inr hprev

theorem entries_build_perm_aux (n : Nat) :
    ∀ (ax : Bool) (pts : List IPt), pts.length ≤ n →
      (entries (build ax pts)).Perm pts := by
  induction n with
  | zero =>
    intro ax pts h
    rw [build]
    rw [if_pos (by simp [leafsize]; omega)]
    exact List.Perm.refl _
  | succ n ih =>
    intro ax pts h
    rw [build]
    split
    · exact List.Perm.refl _
    · rename_i hlen
      simp only [entries]
      have hsort : (List.insertionSort (fun a b => kdKey ax a ≤ kdKey ax b) pts).Perm pts :=
        List.perm_insertionSort _ pts
      have hslen : (List.insertionSort (fun a b => kdKey ax a ≤ kdKey ax b) pts).length
          = pts.length := List.length_insertionSort _ _
      have h1 := ih (!ax)
        ((List.insertionSort (fun a b => kdKey ax a ≤ kdKey ax b) pts).take (pts.length / 2))
        (by simp only [List.length_take, hslen, leafsize] at *; omega)
      have h2 := ih (!ax)
        ((List.insertionSort (fun a b => kdKey ax a ≤ kdKey ax b) pts).drop (pts.length / 2))
        (by simp only [List.length_drop, hslen, leafsize] at *; omega)
      have hTD : (List.insertionSort (fun a b => kdKey ax a ≤ kdKey ax b) pts).take
            (pts.length / 2)
          ++ (List.insertionSort (fun a b => kdKey ax a ≤ kdKey ax b) pts).drop
            (pts.length / 2)
          = List.insertionSort (fun a b => kdKey ax a ≤ kdKey ax b) pts :=
        List.take_append_drop _ _
      exact (h1.append h2).trans (hTD.symm ▸ hsort)

/-- The multiset of indexed points stored in a built tree is exactly the
input sequence. -/
theorem entries_build_perm (ax : Bool) (pts : List IPt) :
    (entries (build ax pts)).Perm pts :=
  entries_build_perm_aux pts.length ax pts (le_refl _)

theorem KDInv_build_aux (n : Nat) :
    ∀ (ax : Bool) (pts : List IPt), pts.length ≤ n → KDInv (build ax pts) := by
  induction n with
  | zero =>
    intro ax pts h
    rw [build]
    rw [if_pos (by simp [leafsize]; omega)]
    exact KDInv.leaf _
  | succ n ih =>
    intro ax pts h
    rw [build]
    split
    · exact KDInv.leaf _
    · rename_i hlen
      have hsorted : List.Sorted (fun a b : IPt => kdKey ax a ≤ kdKey ax b)
          (List.insertionSort (fun a b => kdKey ax a ≤ kdKey ax b) pts) :=
        List.sorted_insertionSort _ pts
      have hslen : (List.insertionSort (fun a b => kdKey ax a ≤ kdKey ax b) pts).length
          = pts.length := List.length_insertionSort _ _
      have hm : pts.length / 2
          < (List.insertionSort (fun a b => kdKey ax a ≤ kdKey ax b) pts).length := by
        simp only [hslen, leafsize] at *
        omega
      have hsplit : List.Sorted (fun a b : IPt => kdKey ax a ≤ kdKey ax b)
          ((List.insertionSort (fun a b => kdKey ax a ≤ kdKey ax b) pts).take (pts.length / 2)
            ++ (List.insertionSort (fun a b => kdKey ax a ≤ kdKey ax b) pts).drop (pts.length / 2)) := by
        rw [List.take_append_drop]
        exact hsorted
      obtain ⟨hsl, hsr, hcross⟩ := List.pairwise_append.mp hsplit
      have hgetD : (List.insertionSort (fun a b => kdKey ax a ≤ kdKey ax b) pts).getD
            (pts.length / 2) ptD
          = (List.insertionSort (fun a b => kdKey ax a ≤ kdKey ax b) pts)[pts.length / 2] :=
        List.getD_eq_getElem _ _ hm
      have hdropCons : (List.insertionSort (fun a b => kdKey ax a ≤ kdKey ax b) pts).drop
            (pts.length / 2)
          = (List.insertionSort (fun a b => kdKey ax a ≤ kdKey ax b) pts)[pts.length / 2]
            :: (List.insertionSort (fun a b => kdKey ax a ≤ kdKey ax b) pts).drop
              (pts.length / 2 + 1) :=
        List.drop_eq_getElem_cons hm
      refine KDInv.node _ _ _ _ ?_ ?_
        (ih _ _ (by simp only [List.length_take, hslen, leafsize] at *; omega))
        (ih _ _ (by simp only [List.length_drop, hslen, leafsize] at *; omega))
      · intro p hp
        have hp' : p ∈ (List.insertionSort (fun a b => kdKey ax a ≤ kdKey ax b) pts).take
            (pts.length / 2) := (entries_build_perm _ _).mem_iff.mp hp
        have hmd : (List.insertionSort (fun a b => kdKey ax a ≤ kdKey ax b) pts)[pts.length / 2]
            ∈ (List.insertionSort (fun a b => kdKey ax a ≤ kdKey ax b) pts).drop
              (pts.length / 2) := by
          rw [hdropCons]
          exact List.mem_cons_self _ _
        rw [hgetD]
        exact hcross p hp' _ hmd
      · intro p hp
        have hp' : p ∈ (List.insertionSort (fun a b => kdKey ax a ≤ kdKey ax b) pts).drop
            (pts.length / 2) := (entries_build_perm _ _).mem_iff.mp hp
        rw [hgetD]
        rw [hdropCons] at hp' hsr
        rcases List.mem_cons.mp hp' with heq | hmem
        · rw [heq]
        · exact List.rel_of_sorted_cons hsr p hmem

/-- Every built tree satisfies the partition invariant. -/
theorem KDInv_build (ax : Bool) (pts : List IPt) : KDInv (build ax pts) :=
  KDInv_build_aux pts.length ax pts (le_refl _)

/-! ## The loaded service state -/

theorem length_enumCoords (i : Nat) (rows : List (String × ℚ × ℚ)) :
    (enumCoords i rows).length = rows.length := by
  induction rows generalizing i with
  | nil => rfl
  | cons row rest ih => simp [enumCoords, ih]

theorem mem_enumCoords (rows : List (String × ℚ × ℚ)) :
    ∀ (i : Nat) (p : IPt), p ∈ enumCoords i rows ↔
      ∃ j, j < rows.length ∧ p = (i + j, (rows.getD j rowD).2) := by
  induction rows with
  | nil =>
    intro i p
    simp [enumCoords]
  | cons row rest ih =>
    intro i p
    simp only [enumCoords, List.mem_cons, ih (i + 1)]
    constructor
    · rintro (h | ⟨j, hj, hp⟩)
      · exact ⟨0, by simp, by simpa using h⟩
      · refine ⟨j + 1, by simpa using hj, ?_⟩
        rw [hp]
        simp [List.getD]
        omega
    · rintro ⟨j, hj, hp⟩
      cases j with
      | zero =>
        left
        simpa using hp
      | succ j =>
        right
        refine ⟨j, by simpa using hj, ?_⟩
        rw [hp]
        simp [List.getD]
        omega

theorem mem_geoPoints (db : List ZipRow) (p : IPt) :
    p ∈ geoPoints db ↔
      ∃ j, j < (fetchAllWithCoords db).length ∧
        p = (j, ((fetchAllWithCoords db).getD j rowD).2) := by
  simpa using mem_enumCoords (fetchAllWithCoords db) 0 p

theorem length_geoPoints (db : List ZipRow) :
    (geoPoints db).length = (fetchAllWithCoords db).length :=
  length_enumCoords 0 _

theorem load_geo_data_eq (st : AppState) (hne : fetchAllWithCoords st.db ≠ []) :
    load_geo_data st =
      { st with
        zip_codes_list := (fetchAllWithCoords st.db).map (fun r => r.1)
        kd_tree := some (build false (geoPoints st.db)) } := by
  simp only [load_geo_data]
  rw [if_neg (by simpa using hne)]

theorem load_geo_data_empty (st : AppState) (he : fetchAllWithCoords st.db = []) :
    load_geo_data st = st := by
  simp only [load_geo_data]
  rw [if_pos (by simpa using he)]

/-- What the loaded `zip_codes_list` holds at an in-range position. -/
theorem zip_codes_list_get (st : AppState) (hne : fetchAllWithCoords st.db ≠ [])
    (i : Nat) (hi : i < (fetchAllWithCoords st.db).length) :
    (load_geo_data st).zip_codes_list.get? i
      = some (((fetchAllWithCoords st.db).getD i rowD).1) := by
  rw [load_geo_data_eq st hne]
  simp only [List.get?_eq_getElem?, List.getElem?_map]
  rw [List.getElem?_eq_getElem hi, List.getD_eq_getElem _ _ hi]
  rfl

theorem mem_fetchAllWithCoords (db : List ZipRow) (z : String) (a b : ℚ) :
    (z, a, b) ∈ fetchAllWithCoords db ↔
      ∃ row ∈ db, row.zip = z ∧ row.lat = some a ∧ row.lng = some b := by
  simp only [fetchAllWithCoords, List.mem_filterMap]
  constructor
  · rintro ⟨row, hrow, heq⟩
    refine ⟨row, hrow, ?_⟩
    cases hla : row.lat with
    | none => rw [hla] at heq; cases heq
    | some a0 =>
      cases hlb : row.lng with
      | none => rw [hla, hlb] at heq; cases heq
      | some b0 =>
        rw [hla, hlb] at heq
        simp only [Option.some.injEq, Prod.mk.injEq] at heq
        exact ⟨heq.1, congrArg some heq.2.1, congrArg some heq.2.2⟩
  · rintro ⟨row, hrow, hz, hla, hlb⟩
    exact ⟨row, hrow, by rw [hla, hlb, hz]⟩

/-- With unique codes, the detail fetch by the code of a coordinate row finds
exactly the row that produced it. -/
theorem find_zip_of_unique (db : List ZipRow)
    (hzip : db.Pairwise (fun x y => x.zip ≠ y.zip)) (z : String) (a b : ℚ)
    (hmem : (z, a, b) ∈ fetchAllWithCoords db) :
    ∃ row, db.find? (fun r0 => r0.zip == z) = some row ∧
      row.zip = z ∧ row.lat = some a ∧ row.lng = some b := by
  induction db with
  | nil => simp [fetchAllWithCoords] at hmem
  | cons h t ih =>
    obtain ⟨hhead, htail⟩ := List.pairwise_cons.mp hzip
    obtain ⟨row, hrowMem, hz, hla, hlb⟩ := (mem_fetchAllWithCoords _ _ _ _).mp hmem
    by_cases hzh : h.zip = z
    · have hfind : (h :: t).find? (fun r0 => r0.zip == z) = some h :=
        List.find?_cons_of_pos _ (by simp [hzh])
      rcases List.mem_cons.mp hrowMem with heq | hmemT
      · exact ⟨h, hfind, hzh, heq ▸ hla, heq ▸ hlb⟩
      · exact absurd (hzh.trans hz.symm) (hhead row hmemT)
    · have hstep : (h :: t).find? (fun r0 => r0.zip == z) = t.find? (fun r0 => r0.zip == z) :=
        List.find?_cons_of_neg _ (by simp [hzh])
      rcases List.mem_cons.mp hrowMem with heq | hmemT
      · exact absurd (heq ▸ hz) hzh
      · have hmemF : (z, a, b) ∈ fetchAllWithCoords t :=
          (mem_fetchAllWithCoords _ _ _ _).mpr ⟨row, hmemT, hz, hla, hlb⟩
        obtain ⟨row2, hf, h1, h2, h3⟩ := ih htail hmemF
        exact ⟨row2, hstep ▸ hf, h1, h2, h3⟩

/-- The query over the freshly built tree returns the (position, squared
distance) of a stored point that attains the minimum over all stored
points. -/
theorem loaded_query_spec (st : AppState)
    (hne : fetchAllWithCoords st.db ≠ []) (q : Pt) :
    ∃ r, queryKD q (build false (geoPoints st.db)) none = some r ∧
      (∃ p ∈ geoPoints st.db, p.1 = r.1 ∧ sqDist p.2 q = r.2) ∧
      (∀ p ∈ geoPoints st.db, r.2 ≤ sqDist p.2 q) := by
  have hperm := entries_build_perm false (geoPoints st.db)
  obtain ⟨h1, h2, h3⟩ := queryKD_correct (KDInv_build false (geoPoints st.db)) q none
  have hlen : 0 < (geoPoints st.db).length := by
    rw [length_geoPoints]
    exact List.length_pos.mpr hne
  obtain ⟨p0, hp0⟩ := List.exists_mem_of_length_pos hlen
  obtain ⟨r, hr, _⟩ := h2 p0 (hperm.mem_iff.mpr hp0)
  refine ⟨r, hr, ?_, ?_⟩
  · rcases h3 r hr with ⟨p, hp, heq⟩ | habs
    · exact ⟨p, hperm.mem_iff.mp hp, by rw [heq], by rw [heq]⟩
    · cases habs
  · intro p hp
    obtain ⟨r2, hr2, hle⟩ := h2 p (hperm.mem_iff.mpr hp)
    rw [hr] at hr2
    cases hr2
    exact hle

theorem build_small (ax : Bool) (pts : List IPt) (h : pts.length ≤ leafsize) :
    build ax pts = KD.leaf pts := by
  rw [build, if_pos h]

theorem demoState_kd : demoState.kd_tree = some (KD.leaf (geoPoints demoDb)) := by
  show (load_geo_data demoSt0).kd_tree = some (KD.leaf (geoPoints demoDb))
  rw [load_geo_data_eq demoSt0 (by decide)]
  show some (build false (geoPoints demoSt0.db)) = _
  rw [build_small false (geoPoints demoSt0.db) (by decide)]
  rfl

/-! ## Claim theorems -/

theorem sqDist_nonneg (a b : Pt) : 0 ≤ sqDist a b := by
  unfold sqDist
  positivity

theorem sqDist_eq_zero_iff (a b : Pt) : sqDist a b = 0 ↔ a = b := by
  constructor
  · intro h
    unfold sqDist at h
    have h1 : (a.1 - b.1) ^ 2 = 0 := by
      nlinarith [sq_nonneg (a.1 - b.1), sq_nonneg (a.2 - b.2), h]
    have h2 : (a.2 - b.2) ^ 2 = 0 := by
      nlinarith [sq_nonneg (a.1 - b.1), sq_nonneg (a.2 - b.2), h]
    have e1 : a.1 = b.1 := by
      have := (pow_eq_zero_iff (two_ne_zero)).mp h1
      linarith [this]
    have e2 : a.2 = b.2 := by
      have := (pow_eq_zero_iff (two_ne_zero)).mp h2
      linarith [this]
    exact Prod.ext e1 e2
  · intro h
    rw [h]
    simp [sqDist]

/-- C1: after a build from a non-empty coordinate-row set, the nearest query
returns a stored point attaining the minimum squared Euclidean distance to
the query over all indexed points — the same minimum value the brute-force
linear scan over the same point set attains. -/
theorem C1_nearest_agrees_with_brute_force (st : AppState)
    (hne : fetchAllWithCoords st.db ≠ []) (lat lng : ℚ) :
    ∃ t r b, (load_geo_data st).kd_tree = some t ∧
      queryKD (lat, lng) t none = some r ∧
      bruteNearest (geoPoints st.db) (lat, lng) = some b ∧
      r.2 = b.2 ∧
      (∃ p ∈ geoPoints st.db, p.1 = r.1 ∧ sqDist p.2 (lat, lng) = r.2) ∧
      ∀ p ∈ geoPoints st.db, r.2 ≤ sqDist p.2 (lat, lng) := by
  obtain ⟨r, hr, hprov, hmin⟩ := loaded_query_spec st hne (lat, lng)
  obtain ⟨s1, s2, s3⟩ := scanMin_correct (lat, lng) (geoPoints st.db) none
  have hlen : 0 < (geoPoints st.db).length := by
    rw [length_geoPoints]
    exact List.length_pos.mpr hne
  obtain ⟨p0, hp0⟩ := List.exists_mem_of_length_pos hlen
  obtain ⟨b, hb, _⟩ := s2 p0 hp0
  have hbmin : ∀ p ∈ geoPoints st.db, b.2 ≤ sqDist p.2 (lat, lng) := by
    intro p hp
    obtain ⟨b2, hb2, hle⟩ := s2 p hp
    rw [hb] at hb2
    cases hb2
    exact hle
  have hbprov : ∃ p ∈ geoPoints st.db, b = (p.1, sqDist p.2 (lat, lng)) := by
    rcases s3 b hb with h | habs
    · exact h
    · cases habs
  obtain ⟨pr, hpr, hpr1, hpr2⟩ := hprov
  obtain ⟨pb, hpb, hpbeq⟩ := hbprov
  have hkd : (load_geo_data st).kd_tree = some (build false (geoPoints st.db)) := by
    rw [load_geo_data_eq st hne]
  refine ⟨build false (geoPoints st.db), r, b, hkd, hr, hb, ?_, ⟨pr, hpr, hpr1, hpr2⟩, hmin⟩
  have h1 : r.2 ≤ b.2 := by
    have := hmin pb hpb
    rw [hpbeq]
    exact this
  have h2 : b.2 ≤ r.2 := by
    have := hbmin pr hpr
    rw [← hpr2]
    exact this
  exact le_antisymm h1 h2

/-- C1 witness: a concrete database, demoDb, has coordinate rows, and C1
applies to it at the query (3, 4). -/
theorem C1_witness :
    fetchAllWithCoords demoSt0.db ≠ [] ∧
    (∃ t r b, (load_geo_data demoSt0).kd_tree = some t ∧
      queryKD (3, 4) t none = some r ∧
      bruteNearest (geoPoints demoSt0.db) (3, 4) = some b ∧
      r.2 = b.2 ∧
      (∃ p ∈ geoPoints demoSt0.db, p.1 = r.1 ∧ sqDist p.2 (3, 4) = r.2) ∧
      ∀ p ∈ geoPoints demoSt0.db, r.2 ≤ sqDist p.2 (3, 4)) :=
  ⟨by decide, C1_nearest_agrees_with_brute_force demoSt0 (by decide) 3 4⟩

/-- C10: for a state built from a non-empty coordinate-row set, the position
returned by the spatial query is always within the bounds of the parallel
code list, so resolving it never accesses out of range. -/
theorem C10_nearest_index_in_range (st : AppState)
    (hne : fetchAllWithCoords st.db ≠ []) (lat lng : ℚ) :
    ∃ t r, (load_geo_data st).kd_tree = some t ∧
      queryKD (lat, lng) t none = some r ∧
      r.1 < (load_geo_data st).zip_codes_list.length ∧
      ∃ z, (load_geo_data st).zip_codes_list.get? r.1 = some z := by
  obtain ⟨r, hr, ⟨p, hp, hp1, _⟩, _⟩ := loaded_query_spec st hne (lat, lng)
  obtain ⟨j, hj, hpeq⟩ := (mem_geoPoints st.db p).mp hp
  have hr1 : r.1 < (fetchAllWithCoords st.db).length := by
    rw [← hp1, hpeq]
    exact hj
  have hkd : (load_geo_data st).kd_tree = some (build false (geoPoints st.db)) := by
    rw [load_geo_data_eq st hne]
  have hlen : (load_geo_data st).zip_codes_list.length
      = (fetchAllWithCoords st.db).length := by
    rw [load_geo_data_eq st hne]
    exact List.length_map _ _
  refine ⟨build false (geoPoints st.db), r, hkd, hr, by rw [hlen]; exact hr1, ?_⟩
  exact ⟨_, zip_codes_list_get st hne r.1 hr1⟩

/-- C10 witness: the bound holds concretely on demoDb at the query (5, 5). -/
theorem C10_witness :
    fetchAllWithCoords demoSt0.db ≠ [] ∧
    (∃ t r, (load_geo_data demoSt0).kd_tree = some t ∧
      queryKD (5, 5) t none = some r ∧
      r.1 < (load_geo_data demoSt0).zip_codes_list.length ∧
      ∃ z, (load_geo_data demoSt0).zip_codes_list.get? r.1 = some z) :=
  ⟨by decide, C10_nearest_index_in_range demoSt0 (by decide) 5 5⟩

/-- C8: after a (re)build, the code list and the tree's point set have equal
lengths, and every stored point's position i refers to the same source row
as position i of the code list (lock-step construction from one pass over
the coordinate rows). -/
theorem C8_lockstep_invariant (st : AppState)
    (hne : fetchAllWithCoords st.db ≠ []) :
    ∃ t, (load_geo_data st).kd_tree = some t ∧
      (load_geo_data st).zip_codes_list.length = (entries t).length ∧
      ∀ p ∈ entries t, p.1 < (fetchAllWithCoords st.db).length ∧
        (load_geo_data st).zip_codes_list.get? p.1
          = some (((fetchAllWithCoords st.db).getD p.1 rowD).1) ∧
        p.2 = ((fetchAllWithCoords st.db).getD p.1 rowD).2 := by
  have hperm := entries_build_perm false (geoPoints st.db)
  have hkd : (load_geo_data st).kd_tree = some (build false (geoPoints st.db)) := by
    rw [load_geo_data_eq st hne]
  refine ⟨build false (geoPoints st.db), hkd, ?_, ?_⟩
  · rw [hperm.length_eq, length_geoPoints, load_geo_data_eq st hne]
    exact List.length_map _ _
  · intro p hp
    obtain ⟨j, hj, hpeq⟩ := (mem_geoPoints st.db p).mp (hperm.mem_iff.mp hp)
    have hp1 : p.1 = j := by rw [hpeq]
    have hp2 : p.2 = ((fetchAllWithCoords st.db).getD j rowD).2 := by rw [hpeq]
    refine ⟨hp1 ▸ hj, ?_, hp1 ▸ hp2⟩
    rw [hp1]
    exact zip_codes_list_get st hne j hj

/-- C8 witness: the lock-step invariant holds concretely on demoDb. -/
theorem C8_witness :
    fetchAllWithCoords demoSt0.db ≠ [] ∧
    (∃ t, (load_geo_data demoSt0).kd_tree = some t ∧
      (load_geo_data demoSt0).zip_codes_list.length = (entries t).length ∧
      ∀ p ∈ entries t, p.1 < (fetchAllWithCoords demoSt0.db).length ∧
        (load_geo_data demoSt0).zip_codes_list.get? p.1
          = some (((fetchAllWithCoords demoSt0.db).getD p.1 rowD).1) ∧
        p.2 = ((fetchAllWithCoords demoSt0.db).getD p.1 rowD).2) :=
  ⟨by decide, C8_lockstep_invariant demoSt0 (by decide)⟩

/-- C5: querying at the exact coordinates of the i-th indexed row returns
that row's record (matching code and coordinates), provided codes are unique
and no other indexed point coincides with it. -/
theorem C5_self_lookup (st : AppState) (i : Nat)
    (hi : i < (fetchAllWithCoords st.db).length)
    (hzip : st.db.Pairwise (fun x y => x.zip ≠ y.zip))
    (hnotie : ∀ j, j < (fetchAllWithCoords st.db).length → j ≠ i →
      ((fetchAllWithCoords st.db).getD j rowD).2
        ≠ ((fetchAllWithCoords st.db).getD i rowD).2) :
    ∃ row, find_nearest (load_geo_data st)
        ((fetchAllWithCoords st.db).getD i rowD).2.1
        ((fetchAllWithCoords st.db).getD i rowD).2.2 = Except.ok row ∧
      row.zip = ((fetchAllWithCoords st.db).getD i rowD).1 ∧
      row.lat = some ((fetchAllWithCoords st.db).getD i rowD).2.1 ∧
      row.lng = some ((fetchAllWithCoords st.db).getD i rowD).2.2 := by
  have hne : fetchAllWithCoords st.db ≠ [] :=
    List.length_pos.mp (Nat.lt_of_le_of_lt (Nat.zero_le i) hi)
  obtain ⟨r, hr, ⟨p, hp, hp1, hp2⟩, hmin⟩ :=
    loaded_query_spec st hne
      (((fetchAllWithCoords st.db).getD i rowD).2.1,
       ((fetchAllWithCoords st.db).getD i rowD).2.2)
  have hqeta : (((fetchAllWithCoords st.db).getD i rowD).2.1,
      ((fetchAllWithCoords st.db).getD i rowD).2.2)
      = ((fetchAllWithCoords st.db).getD i rowD).2 := rfl
  have hpi : ((i : Nat), ((fetchAllWithCoords st.db).getD i rowD).2)
      ∈ geoPoints st.db :=
    (mem_geoPoints st.db _).mpr ⟨i, hi, rfl⟩
  have hr0 : r.2 ≤ 0 := by
    have := hmin _ hpi
    rw [hqeta] at this
    simpa [sqDist_eq_zero_iff, sqDist] using this
  have hr2 : r.2 = 0 := le_antisymm hr0 (by
    rw [← hp2]
    exact sqDist_nonneg _ _)
  have hpq : p.2 = ((fetchAllWithCoords st.db).getD i rowD).2 := by
    have : sqDist p.2 (((fetchAllWithCoords st.db).getD i rowD).2.1,
        ((fetchAllWithCoords st.db).getD i rowD).2.2) = 0 := by
      rw [hp2, hr2]
    rw [hqeta] at this
    exact (sqDist_eq_zero_iff _ _).mp this
  obtain ⟨j, hj, hpeq⟩ := (mem_geoPoints st.db p).mp hp
  have hji : j = i := by
    by_contra hne2
    exact hnotie j hj hne2 (by rw [← hpq, hpeq])
  have hri : r.1 = i := by
    rw [← hp1, hpeq, hji]
  have hget : (load_geo_data st).zip_codes_list.get? r.1
      = some (((fetchAllWithCoords st.db).getD i rowD).1) := by
    rw [hri]
    exact zip_codes_list_get st hne i hi
  have hmem : (((fetchAllWithCoords st.db).getD i rowD).1,
      ((fetchAllWithCoords st.db).getD i rowD).2.1,
      ((fetchAllWithCoords st.db).getD i rowD).2.2) ∈ fetchAllWithCoords st.db := by
    have : (fetchAllWithCoords st.db).getD i rowD ∈ fetchAllWithCoords st.db := by
      rw [List.getD_eq_getElem _ _ hi]
      exact List.getElem_mem hi
    exact this
  obtain ⟨row, hfind, hrz, hrla, hrlb⟩ :=
    find_zip_of_unique st.db hzip _ _ _ hmem
  have hkd : (load_geo_data st).kd_tree = some (build false (geoPoints st.db)) := by
    rw [load_geo_data_eq st hne]
  have hdb : (load_geo_data st).db = st.db := by
    rw [load_geo_data_eq st hne]
  refine ⟨row, ?_, hrz, hrla, hrlb⟩
  simp only [find_nearest, hkd, hr, hget, hdb, hfind]

/-- C5 witness: self-lookup at the Adjuntas row (position 2) of demoDb. -/
theorem C5_witness :
    2 < (fetchAllWithCoords demoSt0.db).length ∧
    demoSt0.db.Pairwise (fun x y => x.zip ≠ y.zip) ∧
    (∀ j, j < (fetchAllWithCoords demoSt0.db).length → j ≠ 2 →
      ((fetchAllWithCoords demoSt0.db).getD j rowD).2
        ≠ ((fetchAllWithCoords demoSt0.db).getD 2 rowD).2) ∧
    (∃ row, find_nearest (load_geo_data demoSt0)
        ((fetchAllWithCoords demoSt0.db).getD 2 rowD).2.1
        ((fetchAllWithCoords demoSt0.db).getD 2 rowD).2.2 = Except.ok row ∧
      row.zip = ((fetchAllWithCoords demoSt0.db).getD 2 rowD).1 ∧
      row.lat = some ((fetchAllWithCoords demoSt0.db).getD 2 rowD).2.1 ∧
      row.lng = some ((fetchAllWithCoords demoSt0.db).getD 2 rowD).2.2) :=
  ⟨by decide, by decide, by decide,
    C5_self_lookup demoSt0 2 (by decide) (by decide) (by decide)⟩

/-- Every error `find_nearest` can produce is the 503 unavailable error, the
500 internal error, or the 404 details error — never a 400 validation
error. -/
theorem find_nearest_error_kinds (st : AppState) (lat lng : ℚ) (e : HTTPError)
    (h : find_nearest st lat lng = Except.error e) :
    e = errUnavailable ∨ e = errInternal ∨ e = errDetails := by
  simp only [find_nearest] at h
  cases hkd : st.kd_tree with
  | none =>
    simp only [hkd] at h
    injection h with h2
    exact Or.inl h2.symm
  | some t =>
    simp only [hkd] at h
    cases hq : queryKD (lat, lng) t none with
    | none =>
      simp only [hq] at h
      injection h with h2
      exact Or.inr (Or.inl h2.symm)
    | some r =>
      simp only [hq] at h
      cases hz : st.zip_codes_list.get? r.1 with
      | none =>
        simp only [hz] at h
        injection h with h2
        exact Or.inr (Or.inl h2.symm)
      | some z =>
        simp only [hz] at h
        cases hf : st.db.find? (fun row => row.zip == z) with
        | none =>
          simp only [hf] at h
          injection h with h2
          exact Or.inr (Or.inr h2.symm)
        | some row =>
          simp only [hf] at h
          cases h

/-- C2 counterexample: contrary to the claim, a nearest query at latitude 91
does not fail — `GET /nearest` performs no bounds validation, and on the
loaded demo state `nearest(91, 0)` returns a record. -/
theorem C2_counterexample : get_nearest_zip demoState 91 0 = Except.ok rowA := by
  have hzl : demoState.zip_codes_list = ["11111", "22222", "00601"] := by
    show (load_geo_data demoSt0).zip_codes_list = _
    rw [load_geo_data_eq demoSt0 (by decide)]
    rfl
  have hdb : demoState.db = demoDb := by
    show (load_geo_data demoSt0).db = _
    rw [load_geo_data_eq demoSt0 (by decide)]
    rfl
  have hq : queryKD (91, 0) (KD.leaf (geoPoints demoDb)) none = some (0, 6661) := by
    show scanMin (91, 0) (geoPoints demoDb) none = some (0, 6661)
    norm_num [geoPoints, fetchAllWithCoords, demoDb, rowA, rowB, rowC, enumCoords,
      scanMin, updateBest, sqDist, List.filterMap_cons, List.filterMap_nil,
      List.foldl_cons, List.foldl_nil]
  simp only [get_nearest_zip, find_nearest, demoState_kd, hq, hzl, hdb]
  rfl

/-- C2 (amended): bounds validation lives only in the combined `GET /{query}`
coordinate path, where a validation error naming the offending field is
signalled iff the parsed latitude is outside [-90, 90] (resp. the longitude
outside [-180, 180], with latitude in range), and in-range coordinates —
boundary values included — proceed to `find_nearest`; `GET /nearest` itself
applies no bounds validation and forwards any coordinates to
`find_nearest`. -/
theorem C2_bounds_validation (pf : String → Option ℚ) (st : AppState)
    (query : String) (la ln : ℚ)
    (hp : (pySplit query ',').length = 2)
    (h0 : pf ((pySplit query ',').getD 0 "") = some la)
    (h1 : pf ((pySplit query ',').getD 1 "") = some ln) :
    (get_zip_or_coords pf st query = Except.error errLat ↔
      ¬ (-90 ≤ la ∧ la ≤ 90)) ∧
    (get_zip_or_coords pf st query = Except.error errLng ↔
      (-90 ≤ la ∧ la ≤ 90) ∧ ¬ (-180 ≤ ln ∧ ln ≤ 180)) ∧
    ((-90 ≤ la ∧ la ≤ 90) → (-180 ≤ ln ∧ ln ≤ 180) →
      get_zip_or_coords pf st query = find_nearest st la ln) ∧
    (∀ lat lng, get_nearest_zip st lat lng = find_nearest st lat lng) := by
  have hbody : get_zip_or_coords pf st query =
      (if ¬ (-90 ≤ la ∧ la ≤ 90) then Except.error errLat
       else if ¬ (-180 ≤ ln ∧ ln ≤ 180) then Except.error errLng
       else find_nearest st la ln) := by
    simp only [get_zip_or_coords, hp, h0, h1, if_pos]
  refine ⟨?_, ?_, ?_, fun _ _ => rfl⟩
  · by_cases hla : (-90 ≤ la ∧ la ≤ 90)
    · refine iff_of_false ?_ (not_not_intro hla)
      rw [hbody, if_neg (not_not_intro hla)]
      by_cases hln : (-180 ≤ ln ∧ ln ≤ 180)
      · rw [if_neg (not_not_intro hln)]
        intro hfe
        rcases find_nearest_error_kinds st la ln errLat hfe with h | h | h <;>
          exact absurd h (by decide)
      · rw [if_pos hln]
        intro hfe
        injection hfe with h2
        exact absurd h2.symm (by decide : errLat ≠ errLng)
    · refine iff_of_true ?_ hla
      rw [hbody, if_pos hla]
  · by_cases hla : (-90 ≤ la ∧ la ≤ 90)
    · by_cases hln : (-180 ≤ ln ∧ ln ≤ 180)
      · refine iff_of_false ?_ (fun hc => hc.2 hln)
        rw [hbody, if_neg (not_not_intro hla), if_neg (not_not_intro hln)]
        intro hfe
        rcases find_nearest_error_kinds st la ln errLng hfe with h | h | h <;>
          exact absurd h (by decide)
      · refine iff_of_true ?_ ⟨hla, hln⟩
        rw [hbody, if_neg (not_not_intro hla), if_pos hln]
    · refine iff_of_false ?_ (fun hc => hla hc.1)
      rw [hbody, if_pos hla]
      intro hfe
      injection hfe with h2
      exact absurd h2 (by decide : errLat ≠ errLng)
  · intro hla hln
    rw [hbody, if_neg (not_not_intro hla), if_neg (not_not_intro hln)]

/-- C2 witness: the amended statement applied to the concrete query string
"91,0" against the loaded demo state, parsed by `parseRat`. -/
theorem C2_witness :
    (pySplit "91,0" ',').length = 2 ∧
    parseRat ((pySplit "91,0" ',').getD 0 "") = some 91 ∧
    parseRat ((pySplit "91,0" ',').getD 1 "") = some 0 ∧
    ((get_zip_or_coords parseRat demoState "91,0" = Except.error errLat ↔
      ¬ (-90 ≤ (91 : ℚ) ∧ (91 : ℚ) ≤ 90)) ∧
    (get_zip_or_coords parseRat demoState "91,0" = Except.error errLng ↔
      (-90 ≤ (91 : ℚ) ∧ (91 : ℚ) ≤ 90) ∧ ¬ (-180 ≤ (0 : ℚ) ∧ (0 : ℚ) ≤ 180)) ∧
    ((-90 ≤ (91 : ℚ) ∧ (91 : ℚ) ≤ 90) → (-180 ≤ (0 : ℚ) ∧ (0 : ℚ) ≤ 180) →
      get_zip_or_coords parseRat demoState "91,0" = find_nearest demoState 91 0) ∧
    (∀ lat lng, get_nearest_zip demoState lat lng = find_nearest demoState lat lng)) :=
  ⟨by decide, by decide, by decide,
    C2_bounds_validation parseRat demoState "91,0" 91 0
      (by decide) (by decide) (by decide)⟩

/-- C4: while the index is unset — including after a load that found zero
coordinate-bearing rows — every nearest query signals the 503 unavailable
error, while exact-code lookup against the reference store still succeeds
for codes present in it. -/
theorem C4_unavailable_index (pf : String → Option ℚ) (st : AppState)
    (hkd : st.kd_tree = none) (lat lng : ℚ) (query : String)
    (hnc : (pySplit query ',').length ≠ 2) :
    find_nearest st lat lng = Except.error errUnavailable ∧
    errUnavailable.status = 503 ∧
    (fetchAllWithCoords st.db = [] → (load_geo_data st).kd_tree = none) ∧
    (∀ row, st.db.find? (fun r0 => r0.zip == query) = some row →
      get_zip_or_coords pf st query = Except.ok row) := by
  refine ⟨?_, rfl, ?_, ?_⟩
  · simp only [find_nearest, hkd]
  · intro he
    rw [load_geo_data_empty st he]
    exact hkd
  · intro row hfind
    simp [get_zip_or_coords, hnc, hfind]

/-- C4 witness: the unloaded demo state answers nearest with 503 yet the
exact lookup of "11111" succeeds. -/
theorem C4_witness :
    demoSt0.kd_tree = none ∧
    (pySplit "11111" ',').length ≠ 2 ∧
    demoSt0.db.find? (fun r0 => r0.zip == "11111") = some rowA ∧
    find_nearest demoSt0 0 0 = Except.error errUnavailable ∧
    get_zip_or_coords parseRat demoSt0 "11111" = Except.ok rowA :=
  ⟨rfl, by decide, by decide,
    (C4_unavailable_index parseRat demoSt0 rfl 0 0 "11111" (by decide)).1,
    (C4_unavailable_index parseRat demoSt0 rfl 0 0 "11111" (by decide)).2.2.2
      rowA (by decide)⟩

/-- C6: when the nearest pipeline resolves an index position to a code that
is absent from the reference store, the service signals the 404
internal-consistency "details" error, which differs from the normal
not-found error of exact lookup; all error kinds of the taxonomy are
pairwise distinct. -/
theorem C6_internal_consistency (st : AppState) (t : KD) (lat lng : ℚ)
    (r : Best) (z : String)
    (hkd : st.kd_tree = some t)
    (hq : queryKD (lat, lng) t none = some r)
    (hz : st.zip_codes_list.get? r.1 = some z)
    (habsent : st.db.find? (fun row => row.zip == z) = none) :
    find_nearest st lat lng = Except.error errDetails ∧
    errDetails ≠ errNotFound ∧
    List.Pairwise (fun a b : HTTPError => a ≠ b)
      [errLat, errLng, errNotFound, errUnavailable, errDetails, errEmpty] := by
  refine ⟨?_, by decide, by decide⟩
  simp only [find_nearest, hkd, hq, hz, habsent]

/-- C6 witness: a state whose code list resolves position 0 to the code
"99999", absent from demoDb, yields the internal-consistency error. -/
theorem C6_witness :
    mismatchState.kd_tree = some (KD.leaf [(0, (0, 0))]) ∧
    queryKD (0, 0) (KD.leaf [(0, (0, 0))]) none = some (0, sqDist (0, 0) (0, 0)) ∧
    mismatchState.zip_codes_list.get? 0 = some "99999" ∧
    mismatchState.db.find? (fun row => row.zip == "99999") = none ∧
    find_nearest mismatchState 0 0 = Except.error errDetails :=
  ⟨rfl, rfl, rfl, by decide,
    (C6_internal_consistency mismatchState (KD.leaf [(0, (0, 0))]) 0 0
      (0, sqDist (0, 0) (0, 0)) "99999" rfl rfl rfl (by decide)).1⟩

/-- C7: the combined-lookup dispatch: a query splitting into exactly two
float-parsable parts is handled as a bounds-validated coordinate query;
anything else (wrong part count or a failed float parse) falls through to
exact-code lookup, which yields the not-found error when the code is
absent. -/
theorem C7_dispatch (pf : String → Option ℚ) (st : AppState) (query : String) :
    (∀ la ln, (pySplit query ',').length = 2 →
      pf ((pySplit query ',').getD 0 "") = some la →
      pf ((pySplit query ',').getD 1 "") = some ln →
      get_zip_or_coords pf st query =
        (if ¬ (-90 ≤ la ∧ la ≤ 90) then Except.error errLat
         else if ¬ (-180 ≤ ln ∧ ln ≤ 180) then Except.error errLng
         else find_nearest st la ln)) ∧
    (((pySplit query ',').length ≠ 2 ∨ pf ((pySplit query ',').getD 0 "") = none ∨
        pf ((pySplit query ',').getD 1 "") = none) →
      get_zip_or_coords pf st query =
        (match st.db.find? (fun row => row.zip == query) with
         | none => Except.error errNotFound
         | some row => Except.ok row)) ∧
    (st.db.find? (fun row0 => row0.zip == query) = none →
      (pySplit query ',').length ≠ 2 →
      get_zip_or_coords pf st query = Except.error errNotFound) := by
  refine ⟨?_, ?_, ?_⟩
  · intro la ln hp h0 h1
    simp only [get_zip_or_coords, hp, h0, h1, if_pos]
  · intro h
    simp only [get_zip_or_coords]
    rcases h with hl | h0 | h1
    · rw [if_neg hl]
    · by_cases hlen : (pySplit query ',').length = 2
      · rw [if_pos hlen, h0]
      · rw [if_neg hlen]
    · by_cases hlen : (pySplit query ',').length = 2
      · cases hpf0 : pf ((pySplit query ',').getD 0 "") with
        | none => rw [if_pos hlen]
        | some la => rw [if_pos hlen, h1]
      · rw [if_neg hlen]
  · intro hfind hnc
    simp only [get_zip_or_coords]
    rw [if_neg hnc, hfind]

/-- C7 witness: the code-less query "nosuch" has no comma split and no
matching code, so dispatch lands in the not-found branch. -/
theorem C7_witness :
    demoSt0.db.find? (fun row0 => row0.zip == "nosuch") = none ∧
    (pySplit "nosuch" ',').length ≠ 2 ∧
    get_zip_or_coords parseRat demoSt0 "nosuch" = Except.error errNotFound :=
  ⟨by decide, by decide,
    (C7_dispatch parseRat demoSt0 "nosuch").2.2 (by decide) (by decide)⟩

/-- C9: the random endpoint returns some member of the reference dataset
when it is non-empty and the 404 empty error when it has no rows; under the
city-and-state restriction any returned record has non-empty city and
state. -/
theorem C9_random_sampling (db shuffled : List ZipRow)
    (hperm : shuffled.Perm db) :
    (db = [] → get_random_zip_filtered shuffled false = Except.error errEmpty) ∧
    (db ≠ [] → ∃ row, get_random_zip_filtered shuffled false = Except.ok row ∧
      row ∈ db) ∧
    (∀ row, get_random_zip_filtered shuffled true = Except.ok row →
      row ∈ db ∧ hasCityState row = true) := by
  refine ⟨?_, ?_, ?_⟩
  · intro he
    subst he
    rw [hperm.eq_nil]
    rfl
  · intro hne
    have hs : shuffled ≠ [] := fun h => hne (h ▸ hperm).symm.eq_nil
    obtain ⟨p, t, hpt⟩ := List.exists_cons_of_ne_nil hs
    refine ⟨p, by rw [hpt]; rfl, ?_⟩
    rw [← hperm.mem_iff, hpt]
    exact List.mem_cons_self _ _
  · intro row h
    have h2 : get_random_zip (shuffled.filter hasCityState) = Except.ok row := h
    cases hpool : shuffled.filter hasCityState with
    | nil =>
      rw [hpool] at h2
      simp [get_random_zip] at h2
    | cons p t =>
      rw [hpool] at h2
      simp only [get_random_zip, List.head?] at h2
      injection h2 with h3
      have hpmem : p ∈ shuffled.filter hasCityState := by
        rw [hpool]
        exact List.mem_cons_self _ _
      obtain ⟨hmem, hcs⟩ := List.mem_filter.mp hpmem
      exact h3 ▸ ⟨hperm.mem_iff.mp hmem, hcs⟩

/-- C9 witness: applied to demoDb with the identity shuffle. -/
theorem C9_witness :
    demoDb ≠ [] ∧
    (∃ row, get_random_zip_filtered demoDb false = Except.ok row ∧
      row ∈ demoDb) :=
  ⟨by decide,
    (C9_random_sampling demoDb demoDb (List.Perm.refl demoDb)).2.1 (by decide)⟩

/-- C3: every valid /zips request returns at most 250 records, and a sort_by
outside the allowed set is rejected with a 400 naming the field. -/
theorem C3_zips_pagination (db : List ZipRow) (page : Nat)
    (sort_by order : String) (cso : Bool) :
    (sort_by ∈ allowed_sort_fields → (order = "asc" ∨ order = "desc") →
      ∃ l, get_zips db page sort_by order cso = Except.ok l ∧
        l.length ≤ page_size) ∧
    (sort_by ∉ allowed_sort_fields →
      get_zips db page sort_by order cso
        = Except.error ⟨400, "Invalid sort_by field: " ++ sort_by⟩) := by
  constructor
  · intro hs ho
    have hc : allowed_sort_fields.contains sort_by = true := List.elem_iff.mpr hs
    have hor : (order == "asc" || order == "desc") = true := by
      rcases ho with h | h <;> simp [h]
    have heq : get_zips db page sort_by order cso =
        Except.ok (((List.insertionSort
            (fun a b : ZipRow =>
              (if order == "asc" then fieldLe sort_by a b
               else fieldLe sort_by b a) = true)
            (if cso then db.filter hasCityState else db)).drop
          ((page - 1) * page_size)).take page_size) := by
      simp only [get_zips]
      rw [if_neg (not_not_intro hc), if_neg (not_not_intro hor)]
    exact ⟨_, heq, List.length_take_le _ _⟩
  · intro hs
    have hc : allowed_sort_fields.contains sort_by = false := by
      cases h : allowed_sort_fields.contains sort_by with
      | true => exact absurd (List.elem_iff.mp h) hs
      | false => rfl
    simp only [get_zips]
    rw [if_pos (by rw [hc]; exact Bool.false_ne_true)]

/-- C3 witness: the default request (page 1, population desc) on demoDb
succeeds with at most 250 records. -/
theorem C3_witness :
    "population" ∈ allowed_sort_fields ∧
    (∃ l, get_zips demoDb 1 "population" "desc" false = Except.ok l ∧
      l.length ≤ page_size) :=
  ⟨by decide,
    (C3_zips_pagination demoDb 1 "population" "desc" false).1 (by decide)
      (Or.inr rfl)⟩
